import Mathlib

/-!
Verification of the `fastq-fix-i5` stream transformer.

The development shallowly embeds `src/main.rs`: bytes are `Nat` (ASCII
codes: `'@' = 64`, `':' = 58`, `'+' = 43`, `'\n' = 10`), byte buffers are
`List Nat`.  Pure functions of the program become Lean functions; the
driver loop of `main` becomes `processStream`, which returns the bytes
written to standard output together with the error message, if any,
returned from `main`.
-/

set_option autoImplicit false

namespace FastqFix

/-- Embeds `complement_base` from `src/main.rs`: the complement of a DNA
base (`A,C,G,T,N`), preserving case; any other byte is left unchanged. -/
def complement_base (b : Nat) : Nat :=
  if b = 65 then 84          -- b'A' => b'T'
  else if b = 67 then 71     -- b'C' => b'G'
  else if b = 71 then 67     -- b'G' => b'C'
  else if b = 84 then 65     -- b'T' => b'A'
  else if b = 78 then 78     -- b'N' => b'N'
  else if b = 97 then 116    -- b'a' => b't'
  else if b = 99 then 103    -- b'c' => b'g'
  else if b = 103 then 99    -- b'g' => b'c'
  else if b = 116 then 97    -- b't' => b'a'
  else if b = 110 then 110   -- b'n' => b'n'
  else b

/-- The two-pointer loop of `reverse_complement_in_place`: `i` walks from
the left, `j` from the right; each step complements the two end bytes and
swaps them.  Rust's `buf[i]`/`buf[j]` indexing is modelled with `List.getD`
and `List.set` (the loop invariant `i < j ≤ buf.length` keeps all accesses
in bounds). -/
def rcLoop (buf : List Nat) (i j : Nat) : List Nat :=
  if _h : i < j then
    -- with j' := j - 1: a := complement_base buf[i]; b := complement_base
    -- buf[j']; buf[i] := b; buf[j'] := a; continue with i + 1, j'.  Both
    -- reads happen before the two writes.
    rcLoop ((buf.set i (complement_base (buf.getD (j - 1) 0))).set (j - 1)
      (complement_base (buf.getD i 0))) (i + 1) (j - 1)
  else buf
termination_by j - i
decreasing_by omega

/-- Embeds `reverse_complement_in_place` from `src/main.rs`, returning the
rewritten buffer. -/
def reverse_complement_in_place (buf : List Nat) : List Nat :=
  rcLoop buf 0 buf.length

/-- Models `memchr::memchr`: index of the first occurrence of `c`. -/
def memchr (c : Nat) : List Nat → Option Nat
  | [] => none
  | b :: rest => if b = c then some 0 else (memchr c rest).map (· + 1)

/-- Models `memchr::memrchr`: index of the last occurrence of `c`. -/
def memrchr (c : Nat) : List Nat → Option Nat
  | [] => none
  | b :: rest =>
    match memrchr c rest with
    | some k => some (k + 1)
    | none => if b = c then some 0 else none

/-- Embeds `rewrite_header_i5` from `src/main.rs`.  The returned pair is
(the `bool` result, the buffer after the call).  The mutable subslice
`&mut header[i5_start..i5_end]` is modelled by take/drop surgery; theorem
`claim_C10` below proves the computed slice bounds are always valid, so
the surgery coincides with the Rust slice semantics and the slicing never
panics. -/
def rewrite_header_i5 (header : List Nat) : Bool × List Nat :=
  if header.isEmpty || header.headD 0 != 64 then
    -- Not a FASTQ header; pass through unchanged.
    (false, header)
  else
    -- Check for trailing newline.
    let has_nl := header.getLast? == some 10
    -- Find last ':' in the header.
    match memrchr 58 header with
    | none => (false, header)
    | some j =>
      -- Find '+' after that last ':'.
      match memchr 43 (header.drop (j + 1)) with
      | none => (false, header)
      | some rel_k =>
        -- i5 header is everything after '+' excluding the newline if present
        let i5_start := j + 1 + rel_k + 1
        let i5_end := if has_nl then header.length - 1 else header.length
        let i5 := (header.drop i5_start).take (i5_end - i5_start)
        (true, header.take i5_start ++ reverse_complement_in_place i5
          ++ header.drop i5_end)

/-- One pass of the `loop` in `read_line` from `src/main.rs`.  The
`BufReader` is abstracted away: `fill_buf` is modelled as exposing the
whole remaining input as one chunk (chunk granularity does not affect the
bytes appended, the total returned, or the cursor position).  When the
chunk holds no line feed the Rust loop consumes it entirely and the next
iteration sees an empty source and returns, which is written here as the
unrolled second branch. -/
def read_line_loop (buf : List Nat) (total : Nat) (input : List Nat) :
    List Nat × Nat × List Nat :=
  if input.isEmpty then (buf, total, input)
  else
    match memchr 10 input with
    | some pos =>
      -- include newline
      (buf ++ input.take (pos + 1), total + (pos + 1), input.drop (pos + 1))
    | none =>
      -- consume all; the next iteration finds the source empty and returns
      (buf ++ input, total + input.length, [])

/-- Embeds `read_line` from `src/main.rs`.  `buf` is the destination
buffer's contents before the call; the function starts with `buf.clear()`,
hence the loop below begins from the empty buffer.  Returns (buffer
contents after the call, the returned byte count, the remaining input). -/
def read_line (buf input : List Nat) : List Nat × Nat × List Nat :=
  -- buf.clear(); let mut total = 0;
  read_line_loop [] 0 input

/-- The error message of the truncation failure in `main`. -/
def truncated_msg : String := "truncated FASTQ record (expected 4 lines)"

/-- Number of bytes the first `read_line` call leaves unconsumed. -/
theorem read_line_rest_le (buf input : List Nat) :
    (read_line buf input).2.2.length ≤ input.length := by
  unfold read_line read_line_loop
  rcases hmem : memchr 10 input with _ | pos <;> by_cases hin : input = [] <;>
    simp [hmem, hin, List.length_drop] <;> omega

theorem read_line_total_ne_zero (buf input : List Nat)
    (h : input ≠ []) : (read_line buf input).2.1 ≠ 0 := by
  unfold read_line read_line_loop
  rcases hmem : memchr 10 input with _ | pos <;>
    simp [hmem, h, List.length_eq_zero]

theorem read_line_rest_lt (buf input : List Nat)
    (h : input ≠ []) : (read_line buf input).2.2.length < input.length := by
  have hpos : 0 < input.length := List.length_pos.mpr h
  unfold read_line read_line_loop
  rcases hmem : memchr 10 input with _ | pos <;>
    simp [hmem, h, List.length_drop] <;> omega

/-- Embeds the driver loop of `main` from `src/main.rs`.  Returns the
bytes written to standard output and the error (`none` on clean EOF,
`some truncated_msg` when a record is truncated).  Each loop iteration
clears the four line buffers and calls `read_line`, which is why every
`read_line` call below starts from the empty buffer.  The `||` chain of
the three reads short-circuits in Rust, which the nested `if`s mirror. -/
def processStream (input : List Nat) : List Nat × Option String :=
  let r1 := read_line [] input
  if _h1 : r1.2.1 = 0 then ([], none)   -- EOF
  else
    let r2 := read_line [] r1.2.2
    if r2.2.1 = 0 then ([], some truncated_msg)
    else
      let r3 := read_line [] r2.2.2
      if r3.2.1 = 0 then ([], some truncated_msg)
      else
        let r4 := read_line [] r3.2.2
        if r4.2.1 = 0 then ([], some truncated_msg)
        else
          let rest := processStream r4.2.2
          ((rewrite_header_i5 r1.1).2 ++ r2.1 ++ r3.1 ++ r4.1 ++ rest.1,
            rest.2)
termination_by input.length
decreasing_by
  have h1 : input ≠ [] := by
    rintro rfl
    exact _h1 rfl
  calc (read_line [] (read_line [] (read_line [] (read_line [] input).2.2).2.2).2.2).2.2.length
      ≤ (read_line [] (read_line [] (read_line [] input).2.2).2.2).2.2.length :=
        read_line_rest_le _ _
    _ ≤ (read_line [] (read_line [] input).2.2).2.2.length := read_line_rest_le _ _
    _ ≤ (read_line [] input).2.2.length := read_line_rest_le _ _
    _ < input.length := read_line_rest_lt _ _ h1

/-! Spec-side definitions.  These are written from the words of the
specification and of the claims, to be compared with the embedded code. -/

/-- The DNA base alphabet of §3 of the spec: `A,C,G,T,N` and their
lowercase forms. -/
def dnaAlphabet : List Nat := [65, 67, 71, 84, 78, 97, 99, 103, 116, 110]

/-- Reverse complement as the spec's glossary defines it: reverse the
order of the bytes and substitute each base for its complement. -/
def revcomp (l : List Nat) : List Nat := (l.map complement_base).reverse

/-- The location of the i5 index field inside a header buffer, as the
code's scanning computes it: `some (s, e)` means the field is the
half-open byte range `[s, e)`; `none` means the pattern did not match
(empty buffer, no leading `'@'`, no `':'`, or no `'+'` after the last
`':'`). -/
def i5_span (header : List Nat) : Option (Nat × Nat) :=
  if header.isEmpty || header.headD 0 != 64 then none
  else
    match memrchr 58 header with
    | none => none
    | some j =>
      match memchr 43 (header.drop (j + 1)) with
      | none => none
      | some rel_k =>
        some (j + 1 + rel_k + 1,
          if header.getLast? == some 10 then header.length - 1
          else header.length)

/-- The bytes of the i5 index field (empty when the pattern does not
match). -/
def i5_field (header : List Nat) : List Nat :=
  match i5_span header with
  | none => []
  | some se => (header.drop se.1).take (se.2 - se.1)

/-- Position `i` lies outside the i5 index field of `header` (always true
when the header has no such field). -/
def outsideSpanB (header : List Nat) (i : Nat) : Bool :=
  match i5_span header with
  | none => true
  | some se => i < se.1 || decide (se.2 ≤ i)

/-- The header fails the rewriter's pattern: empty, or not starting with
`'@'`, or without `':'`, or without `'+'` after the last `':'`. -/
def headerNoMatch (header : List Nat) : Bool :=
  header.isEmpty || header.headD 0 != 64 ||
    (match memrchr 58 header with
     | none => true
     | some j => (memchr 43 (header.drop (j + 1))).isNone)

/-- Modelled from claim C1's words: the bytes after the first `'+'`
following the last `':'` of the header, excluding a trailing newline, are
replaced by their reverse complement; a header without that shape is left
unchanged.  Note this spec-side rewrite has no leading-`'@'` test; theorem
`rewrite_header_i5_eq_spec` relates it to the embedded code. -/
def spec_i5_rewrite (header : List Nat) : List Nat :=
  match memrchr 58 header with
  | none => header
  | some j =>
    match memchr 43 (header.drop (j + 1)) with
    | none => header
    | some rel_k =>
      let s := j + 1 + rel_k + 1
      let e := if header.getLast? == some 10 then header.length - 1
        else header.length
      header.take s ++ revcomp ((header.drop s).take (e - s)) ++ header.drop e

/-- One FASTQ record: header, sequence, plus-line and quality line. -/
structure Rec4 where
  h : List Nat
  s : List Nat
  p : List Nat
  q : List Nat

/-- The bytes of one record, in stream order. -/
def flat4 (r : Rec4) : List Nat := r.h ++ r.s ++ r.p ++ r.q

/-- The bytes of a stream of records. -/
def joinRecs (rs : List Rec4) : List Nat := (rs.map flat4).flatten

/-- A record with its header rewritten by the embedded code. -/
def rwRec (r : Rec4) : Rec4 := ⟨(rewrite_header_i5 r.h).2, r.s, r.p, r.q⟩

/-- A record with its header rewritten as claim C1's words describe. -/
def specRec (r : Rec4) : Rec4 := ⟨spec_i5_rewrite r.h, r.s, r.p, r.q⟩

/-- A newline-terminated line: nonempty, ends with `'\n'`, and holds no
interior `'\n'`. -/
def isProperLine (l : List Nat) : Bool :=
  l.getLast? == some 10 && !(decide (10 ∈ l.dropLast))

/-- A final line cut short by end of stream: nonempty and without
`'\n'`. -/
def isBareLine (l : List Nat) : Bool := !l.isEmpty && !(decide (10 ∈ l))

/-- A well-formed FASTQ stream: every line of every record is
newline-terminated, except that the very last line of the stream may be
bare (nonempty with its newline missing). -/
def wfStream : List Rec4 → Bool
  | [] => true
  | r :: rs =>
    isProperLine r.h && isProperLine r.s && isProperLine r.p &&
      (isProperLine r.q || (rs.isEmpty && isBareLine r.q)) && wfStream rs

/-- A FASTQ stream whose every line, the last included, is
newline-terminated. -/
def wfProperStream : List Rec4 → Bool
  | [] => true
  | r :: rs =>
    isProperLine r.h && isProperLine r.s && isProperLine r.p &&
      isProperLine r.q && wfProperStream rs

/-- The number of lines `read_line` can deliver from a byte stream: the
number of line feeds, plus one for a bare trailing line. -/
def lineCount (l : List Nat) : Nat :=
  l.count 10 + (if l.getLast? == some 10 || l.isEmpty then 0 else 1)

/-! Helper lemmas about list surgery at a known offset. -/

theorem take_append_self (A B : List Nat) : (A ++ B).take A.length = A := by
  induction A with
  | nil => rfl
  | cons a A ih => simp [ih]

theorem drop_append_self (A B : List Nat) : (A ++ B).drop A.length = B := by
  induction A with
  | nil => rfl
  | cons a A ih => simp [ih]

theorem take_append_cons (A B : List Nat) (x : Nat) :
    (A ++ x :: B).take (A.length + 1) = A ++ [x] := by
  induction A with
  | nil => rfl
  | cons a A ih => simp [List.take_succ_cons, ih]

theorem drop_append_cons (A B : List Nat) (x : Nat) :
    (A ++ x :: B).drop (A.length + 1) = B := by
  induction A with
  | nil => rfl
  | cons a A ih => simpa using ih

theorem getD_append_cons (A B : List Nat) (x d : Nat) :
    (A ++ x :: B).getD A.length d = x := by
  induction A with
  | nil => rfl
  | cons a A ih => simpa [List.getD_cons_succ] using ih

theorem set_append_cons (A B : List Nat) (x v : Nat) :
    (A ++ x :: B).set A.length v = A ++ v :: B := by
  induction A with
  | nil => rfl
  | cons a A ih => simp [List.set_cons_succ, ih]

/-! Characterization lemmas for `memchr` and `memrchr`. -/

theorem memchr_none_iff (c : Nat) (l : List Nat) :
    memchr c l = none ↔ c ∉ l := by
  induction l with
  | nil => simp [memchr]
  | cons b rest ih =>
    by_cases hb : b = c
    · simp [memchr, hb]
    · simp [memchr, hb, ih, Option.map_eq_none', Ne.symm hb]

theorem memchr_append_cons (c : Nat) (A B : List Nat) (hA : c ∉ A) :
    memchr c (A ++ c :: B) = some A.length := by
  induction A with
  | nil => simp [memchr]
  | cons a A ih =>
    have ha : a ≠ c := fun h => hA (by simp [h])
    have hA' : c ∉ A := fun h => hA (by simp [h])
    simp [memchr, ha, ih hA']

theorem memchr_eq_some (c : Nat) (l : List Nat) (k : Nat)
    (h : memchr c l = some k) :
    ∃ A B, l = A ++ c :: B ∧ A.length = k ∧ c ∉ A := by
  induction l generalizing k with
  | nil => simp [memchr] at h
  | cons b rest ih =>
    by_cases hb : b = c
    · subst hb
      simp [memchr] at h
      exact ⟨[], rest, by simp, by simp [h], by simp⟩
    · simp [memchr, hb] at h
      obtain ⟨k', hk', rfl⟩ := h
      obtain ⟨A, B, rfl, hlen, hmem⟩ := ih k' hk'
      exact ⟨b :: A, B, by simp, by simp [hlen], by
        simp only [List.mem_cons, not_or]
        exact ⟨fun h => hb h.symm, hmem⟩⟩

theorem memrchr_none_iff (c : Nat) (l : List Nat) :
    memrchr c l = none ↔ c ∉ l := by
  induction l with
  | nil => simp [memrchr]
  | cons b rest ih =>
    cases hr : memrchr c rest with
    | some k =>
      have : c ∈ rest := by
        by_contra hmem
        rw [← ih] at hmem
        simp [hr] at hmem
      simp [memrchr, hr, this]
    | none =>
      have hmem : c ∉ rest := (ih).mp hr
      by_cases hb : b = c
      · simp [memrchr, hr, hb]
      · simp [memrchr, hr, hb, hmem, Ne.symm hb]

theorem memrchr_append_cons (c : Nat) (A B : List Nat) (hB : c ∉ B) :
    memrchr c (A ++ c :: B) = some A.length := by
  induction A with
  | nil =>
    have : memrchr c B = none := (memrchr_none_iff c B).mpr hB
    simp [memrchr, this]
  | cons a A ih => simp [memrchr, ih]

theorem memrchr_eq_some (c : Nat) (l : List Nat) (j : Nat)
    (h : memrchr c l = some j) :
    ∃ A B, l = A ++ c :: B ∧ A.length = j ∧ c ∉ B := by
  induction l generalizing j with
  | nil => simp [memrchr] at h
  | cons b rest ih =>
    cases hr : memrchr c rest with
    | some k =>
      simp [memrchr, hr] at h
      obtain ⟨A, B, rfl, hlen, hmem⟩ := ih k hr
      exact ⟨b :: A, B, by simp, by simp [hlen, ← h], hmem⟩
    | none =>
      have hmem : c ∉ rest := (memrchr_none_iff c rest).mp hr
      by_cases hb : b = c
      · subst hb
        simp [memrchr, hr] at h
        exact ⟨[], rest, by simp, by simp [← h], hmem⟩
      · simp [memrchr, hr, hb] at h

/-! Lemmas about `complement_base` and `revcomp`. -/

theorem complement_base_eq_self {b : Nat} (h1 : b ≠ 65) (h2 : b ≠ 67)
    (h3 : b ≠ 71) (h4 : b ≠ 84) (h5 : b ≠ 78) (h6 : b ≠ 97) (h7 : b ≠ 99)
    (h8 : b ≠ 103) (h9 : b ≠ 116) (h10 : b ≠ 110) :
    complement_base b = b := by
  unfold complement_base
  rw [if_neg h1, if_neg h2, if_neg h3, if_neg h4, if_neg h5, if_neg h6,
    if_neg h7, if_neg h8, if_neg h9, if_neg h10]

theorem complement_base_involutive (b : Nat) :
    complement_base (complement_base b) = b := by
  by_cases h1 : b = 65; · subst h1; rfl
  by_cases h2 : b = 67; · subst h2; rfl
  by_cases h3 : b = 71; · subst h3; rfl
  by_cases h4 : b = 84; · subst h4; rfl
  by_cases h5 : b = 78; · subst h5; rfl
  by_cases h6 : b = 97; · subst h6; rfl
  by_cases h7 : b = 99; · subst h7; rfl
  by_cases h8 : b = 103; · subst h8; rfl
  by_cases h9 : b = 116; · subst h9; rfl
  by_cases h10 : b = 110; · subst h10; rfl
  rw [complement_base_eq_self h1 h2 h3 h4 h5 h6 h7 h8 h9 h10,
    complement_base_eq_self h1 h2 h3 h4 h5 h6 h7 h8 h9 h10]

theorem complement_base_eq_ten_iff (b : Nat) :
    complement_base b = 10 ↔ b = 10 := by
  by_cases h1 : b = 65; · subst h1; decide
  by_cases h2 : b = 67; · subst h2; decide
  by_cases h3 : b = 71; · subst h3; decide
  by_cases h4 : b = 84; · subst h4; decide
  by_cases h5 : b = 78; · subst h5; decide
  by_cases h6 : b = 97; · subst h6; decide
  by_cases h7 : b = 99; · subst h7; decide
  by_cases h8 : b = 103; · subst h8; decide
  by_cases h9 : b = 116; · subst h9; decide
  by_cases h10 : b = 110; · subst h10; decide
  rw [complement_base_eq_self h1 h2 h3 h4 h5 h6 h7 h8 h9 h10]

theorem complement_base_mem_alphabet {b : Nat} (hb : b ∈ dnaAlphabet) :
    complement_base b ∈ dnaAlphabet := by
  fin_cases hb <;> decide

theorem revcomp_revcomp (l : List Nat) : revcomp (revcomp l) = l := by
  have hcc : complement_base ∘ complement_base = id :=
    funext complement_base_involutive
  simp [revcomp, List.map_reverse, List.map_map, hcc]

theorem revcomp_length (l : List Nat) : (revcomp l).length = l.length := by
  simp [revcomp]

theorem revcomp_count_ten (l : List Nat) :
    (revcomp l).count 10 = l.count 10 := by
  unfold revcomp
  rw [List.count_reverse]
  induction l with
  | nil => rfl
  | cons b rest ih =>
    by_cases hb : b = 10
    · simp [List.count_cons, ih, hb, complement_base_eq_ten_iff]
    · have : complement_base b ≠ 10 :=
        fun h => hb ((complement_base_eq_ten_iff b).mp h)
      simp [List.count_cons, ih, hb, this]

theorem revcomp_mem_alphabet {E : List Nat}
    (hE : ∀ b ∈ E, b ∈ dnaAlphabet) :
    ∀ x ∈ revcomp E, x ∈ dnaAlphabet := by
  intro x hx
  simp only [revcomp, List.mem_reverse, List.mem_map] at hx
  obtain ⟨b, hb, rfl⟩ := hx
  exact complement_base_mem_alphabet (hE b hb)

/-! The two-pointer loop computes the reverse complement. -/

theorem rcLoop_append (R : List Nat) : ∀ (A B : List Nat),
    rcLoop (A ++ R ++ B) A.length (A.length + R.length) =
      A ++ revcomp R ++ B := by
  induction R using List.bidirectionalRec with
  | nil =>
    intro A B
    unfold rcLoop
    simp [revcomp]
  | singleton x =>
    intro A B
    unfold rcLoop
    rw [dif_pos (by simp)]
    have h1 : A.length + [x].length - 1 = A.length := by simp
    rw [h1, List.append_assoc, List.singleton_append]
    simp only [getD_append_cons, set_append_cons]
    unfold rcLoop
    rw [dif_neg (by omega)]
    simp [revcomp]
  | cons_append x M y ih =>
    intro A B
    have hlen : (x :: (M ++ [y])).length = M.length + 2 := by simp
    rw [hlen]
    unfold rcLoop
    rw [dif_pos (by omega)]
    have hassoc : A ++ (x :: (M ++ [y])) ++ B =
        A ++ x :: (M ++ [y] ++ B) := by simp
    have hx : (A ++ (x :: (M ++ [y])) ++ B).getD A.length 0 = x := by
      rw [hassoc]
      exact getD_append_cons A _ x 0
    have hidx : A.length + (M.length + 2) - 1 = (A ++ x :: M).length := by
      simp <;> omega
    have hrearr : A ++ (x :: (M ++ [y])) ++ B =
        (A ++ x :: M) ++ y :: B := by simp
    have hy : (A ++ (x :: (M ++ [y])) ++ B).getD ((A ++ x :: M).length) 0
        = y := by
      rw [hrearr]
      exact getD_append_cons _ _ y 0
    rw [hidx, hx, hy]
    have hset : ((A ++ (x :: (M ++ [y])) ++ B).set A.length
          (complement_base y)).set ((A ++ x :: M).length)
          (complement_base x) =
        (A ++ [complement_base y]) ++ M ++ (complement_base x :: B) := by
      rw [hassoc, set_append_cons]
      have heq : A ++ complement_base y :: (M ++ [y] ++ B) =
          (A ++ complement_base y :: M) ++ y :: B := by simp
      have hlen2 : (A ++ x :: M).length =
          (A ++ complement_base y :: M).length := by simp
      rw [heq, hlen2, set_append_cons]
      simp
    rw [hset]
    have hA' : A.length + 1 = (A ++ [complement_base y]).length := by simp
    have hj' : (A ++ x :: M).length =
        (A ++ [complement_base y]).length + M.length := by
      simp <;> omega
    rw [hj', hA']
    rw [ih (A ++ [complement_base y]) (complement_base x :: B)]
    have hrc : revcomp (x :: (M ++ [y])) =
        complement_base y :: (revcomp M ++ [complement_base x]) := by
      simp [revcomp]
    rw [hrc]
    simp

theorem reverse_complement_in_place_eq (l : List Nat) :
    reverse_complement_in_place l = revcomp l := by
  have h := rcLoop_append l [] []
  simpa [reverse_complement_in_place] using h

/-! Lemmas about lines and `read_line`. -/

theorem isProperLine_iff (l : List Nat) :
    isProperLine l = true ↔ ∃ m, l = m ++ [10] ∧ 10 ∉ m := by
  rcases List.eq_nil_or_concat l with rfl | ⟨m, b, rfl⟩
  · simp [isProperLine]
  · simp only [List.concat_eq_append, isProperLine, List.getLast?_concat,
      List.dropLast_concat,
      Bool.and_eq_true, beq_iff_eq, Option.some.injEq, Bool.not_eq_true',
      decide_eq_false_iff_not]
    constructor
    · rintro ⟨rfl, hmem⟩
      exact ⟨m, rfl, hmem⟩
    · rintro ⟨m', heq, hmem⟩
      have h1 := congrArg List.dropLast heq
      have h2 := congrArg List.getLast? heq
      simp only [List.dropLast_concat, List.getLast?_concat,
        Option.some.injEq] at h1 h2
      subst h1
      exact ⟨h2, hmem⟩

theorem isProperLine_ne_nil {l : List Nat} (h : isProperLine l = true) :
    l ≠ [] := by
  obtain ⟨m, rfl, -⟩ := (isProperLine_iff l).mp h
  simp

theorem isBareLine_ne_nil {l : List Nat} (h : isBareLine l = true) :
    l ≠ [] := by
  simp only [isBareLine, Bool.and_eq_true, Bool.not_eq_true',
    List.isEmpty_eq_false] at h
  exact h.1

theorem read_line_nil (buf : List Nat) : read_line buf [] = ([], 0, []) := rfl

theorem read_line_proper (buf L rest : List Nat)
    (hL : isProperLine L = true) :
    read_line buf (L ++ rest) = (L, L.length, rest) := by
  obtain ⟨m, rfl, hmem⟩ := (isProperLine_iff L).mp hL
  have hsh : m ++ [10] ++ rest = m ++ 10 :: rest := by simp
  have hch : memchr 10 (m ++ [10] ++ rest) = some m.length := by
    rw [hsh]; exact memchr_append_cons 10 m rest hmem
  unfold read_line read_line_loop
  rw [hch]
  have hne : (m ++ [10] ++ rest).isEmpty = false := by simp
  rw [hne]
  simp only [Bool.false_eq_true, if_false]
  rw [hsh, take_append_cons, drop_append_cons]
  simp

theorem read_line_bare (buf L : List Nat) (hL : isBareLine L = true) :
    read_line buf L = (L, L.length, []) := by
  simp only [isBareLine, Bool.and_eq_true, Bool.not_eq_true',
    List.isEmpty_eq_false, decide_eq_false_iff_not] at hL
  obtain ⟨hne, hmem⟩ := hL
  have hch : memchr 10 L = none := (memchr_none_iff 10 L).mpr hmem
  unfold read_line read_line_loop
  rw [hch]
  have hne' : L.isEmpty = false := by simpa using hne
  rw [hne']
  simp

/-! Unfolding lemmas for the driver loop. -/

theorem processStream_unfold (input : List Nat) :
    processStream input =
      if (read_line [] input).2.1 = 0 then ([], none)
      else if (read_line [] (read_line [] input).2.2).2.1 = 0 then
        ([], some truncated_msg)
      else if (read_line []
          (read_line [] (read_line [] input).2.2).2.2).2.1 = 0 then
        ([], some truncated_msg)
      else if (read_line [] (read_line []
          (read_line [] (read_line [] input).2.2).2.2).2.2).2.1 = 0 then
        ([], some truncated_msg)
      else
        ((rewrite_header_i5 (read_line [] input).1).2 ++
            (read_line [] (read_line [] input).2.2).1 ++
            (read_line []
              (read_line [] (read_line [] input).2.2).2.2).1 ++
            (read_line [] (read_line []
              (read_line [] (read_line [] input).2.2).2.2).2.2).1 ++
            (processStream (read_line [] (read_line []
              (read_line [] (read_line [] input).2.2).2.2).2.2).2.2).1,
          (processStream (read_line [] (read_line []
            (read_line [] (read_line [] input).2.2).2.2).2.2).2.2).2) := by
  conv_lhs => unfold processStream
  rfl

theorem processStream_nil : processStream [] = ([], none) := by
  rw [processStream_unfold]
  simp [read_line, read_line_loop]

/-- One iteration of the driver loop on a complete record: the header is
rewritten, the other three lines pass through verbatim, and the loop
continues on the remaining input.  The quality line is either a proper
line, or (at the very end of the stream) a bare line with no input
following it. -/
theorem processStream_record (h s p q rest : List Nat)
    (hh : isProperLine h = true) (hs : isProperLine s = true)
    (hp : isProperLine p = true)
    (hq : isProperLine q = true ∨ (rest = [] ∧ isBareLine q = true)) :
    processStream (h ++ (s ++ (p ++ (q ++ rest)))) =
      ((rewrite_header_i5 h).2 ++ s ++ p ++ q ++ (processStream rest).1,
        (processStream rest).2) := by
  have hq' : read_line [] (q ++ rest) = (q, q.length, rest) := by
    rcases hq with hq | ⟨rfl, hq⟩
    · exact read_line_proper [] q rest hq
    · rw [List.append_nil]
      exact read_line_bare [] q hq
  have hlh : h.length ≠ 0 := by
    simpa [List.length_eq_zero] using isProperLine_ne_nil hh
  have hls : s.length ≠ 0 := by
    simpa [List.length_eq_zero] using isProperLine_ne_nil hs
  have hlp : p.length ≠ 0 := by
    simpa [List.length_eq_zero] using isProperLine_ne_nil hp
  have hlq : q.length ≠ 0 := by
    rcases hq with hq | ⟨-, hq⟩
    · simpa [List.length_eq_zero] using isProperLine_ne_nil hq
    · simpa [List.length_eq_zero] using isBareLine_ne_nil hq
  rw [processStream_unfold]
  rw [read_line_proper [] h _ hh]
  simp only []
  rw [read_line_proper [] s _ hs, read_line_proper [] p _ hp, hq']
  simp [hlh, hls, hlp, hlq]

/-! Characterization of `rewrite_header_i5` through `i5_span`. -/

theorem rewrite_of_span_none (h : List Nat) (hn : i5_span h = none) :
    rewrite_header_i5 h = (false, h) := by
  unfold i5_span at hn
  unfold rewrite_header_i5
  cases hg : (h.isEmpty || h.headD 0 != 64) with
  | true => simp
  | false =>
    rw [hg] at hn
    simp only [Bool.false_eq_true, if_false] at hn ⊢
    cases hj : memrchr 58 h with
    | none => simp [hj]
    | some j =>
      cases hk : memchr 43 (h.drop (j + 1)) with
      | none => simp [hj, hk]
      | some rel_k => simp [hj, hk] at hn

theorem rewrite_of_span_some (h : List Nat) (s e : Nat)
    (hs : i5_span h = some (s, e)) :
    rewrite_header_i5 h =
      (true, h.take s ++ revcomp ((h.drop s).take (e - s)) ++ h.drop e) := by
  unfold i5_span at hs
  unfold rewrite_header_i5
  cases hg : (h.isEmpty || h.headD 0 != 64) with
  | true => rw [hg] at hs; simp at hs
  | false =>
    rw [hg] at hs
    simp only [Bool.false_eq_true, if_false] at hs ⊢
    cases hj : memrchr 58 h with
    | none => simp [hj] at hs
    | some j =>
      cases hk : memchr 43 (h.drop (j + 1)) with
      | none => simp [hj, hk] at hs
      | some rel_k =>
        simp only [hj, hk, Option.some.injEq, Prod.mk.injEq] at hs
        obtain ⟨hs1, hs2⟩ := hs
        subst hs1
        subst hs2
        simp only [hj, hk]
        rw [reverse_complement_in_place_eq]

theorem headerNoMatch_iff_span_none (h : List Nat) :
    headerNoMatch h = true ↔ i5_span h = none := by
  unfold headerNoMatch i5_span
  cases hg : (h.isEmpty || h.headD 0 != 64) with
  | true => simp
  | false =>
    simp only [Bool.false_eq_true, if_false, Bool.false_or]
    cases hj : memrchr 58 h with
    | none => simp [hj]
    | some j =>
      cases hk : memchr 43 (h.drop (j + 1)) with
      | none => simp [hj, hk]
      | some rel_k => simp [hj, hk]

/-! Decomposed headers: `A ++ ':' :: C ++ '+' :: field`, where the field
carries no `':'` and `C` carries neither `':'` nor `'+'`. -/

theorem i5_span_decomp_nl (A C E : List Nat)
    (hhead : (A ++ (58 :: (C ++ (43 :: (E ++ [10]))))).headD 0 = 64)
    (h58C : 58 ∉ C) (h58E : 58 ∉ E) (h43C : 43 ∉ C) :
    i5_span (A ++ (58 :: (C ++ (43 :: (E ++ [10]))))) =
      some (A.length + C.length + 2, A.length + C.length + 2 + E.length) := by
  have hguard : ((A ++ (58 :: (C ++ (43 :: (E ++ [10]))))).isEmpty
      || (A ++ (58 :: (C ++ (43 :: (E ++ [10]))))).headD 0 != 64) = false := by
    simp at hhead
    simp [hhead]
  have h58 : 58 ∉ C ++ (43 :: (E ++ [10])) := by
    simp only [List.mem_append, List.mem_cons, List.mem_singleton]
    push_neg
    exact ⟨h58C, by decide, h58E, by decide, by decide⟩
  have hj : memrchr 58 (A ++ (58 :: (C ++ (43 :: (E ++ [10]))))) =
      some A.length := memrchr_append_cons 58 A _ h58
  have hdrop : (A ++ (58 :: (C ++ (43 :: (E ++ [10]))))).drop (A.length + 1)
      = C ++ (43 :: (E ++ [10])) := drop_append_cons A _ 58
  have hk : memchr 43 (C ++ (43 :: (E ++ [10]))) = some C.length :=
    memchr_append_cons 43 C _ h43C
  have hlast : (A ++ (58 :: (C ++ (43 :: (E ++ [10]))))).getLast? =
      some 10 := by
    have hsh : A ++ (58 :: (C ++ (43 :: (E ++ [10])))) =
        (A ++ (58 :: (C ++ (43 :: E)))) ++ [10] := by simp
    rw [hsh, List.getLast?_concat]
  have hlen : (A ++ (58 :: (C ++ (43 :: (E ++ [10]))))).length =
      A.length + C.length + 3 + E.length := by
    simp <;> omega
  unfold i5_span
  rw [hguard]
  simp only [Bool.false_eq_true, if_false]
  simp only [hj]
  rw [hdrop]
  simp only [hk]
  rw [hlast, hlen]
  simp only [beq_self_eq_true, if_true, Option.some.injEq, Prod.mk.injEq]
  constructor <;> omega

theorem i5_span_decomp_nonl (A C D : List Nat)
    (hhead : (A ++ (58 :: (C ++ (43 :: D)))).headD 0 = 64)
    (h58C : 58 ∉ C) (h58D : 58 ∉ D) (h43C : 43 ∉ C)
    (hD : D.getLast? ≠ some 10) :
    i5_span (A ++ (58 :: (C ++ (43 :: D)))) =
      some (A.length + C.length + 2, A.length + C.length + 2 + D.length) := by
  have hguard : ((A ++ (58 :: (C ++ (43 :: D)))).isEmpty
      || (A ++ (58 :: (C ++ (43 :: D)))).headD 0 != 64) = false := by
    simp at hhead
    simp [hhead]
  have h58 : 58 ∉ C ++ (43 :: D) := by
    simp only [List.mem_append, List.mem_cons]
    push_neg
    exact ⟨h58C, by omega, h58D⟩
  have hj : memrchr 58 (A ++ (58 :: (C ++ (43 :: D)))) = some A.length :=
    memrchr_append_cons 58 A _ h58
  have hdrop : (A ++ (58 :: (C ++ (43 :: D)))).drop (A.length + 1)
      = C ++ (43 :: D) := drop_append_cons A _ 58
  have hk : memchr 43 (C ++ (43 :: D)) = some C.length :=
    memchr_append_cons 43 C _ h43C
  have hlast : (A ++ (58 :: (C ++ (43 :: D)))).getLast? ≠ some 10 := by
    rcases List.eq_nil_or_concat D with rfl | ⟨D', d, rfl⟩
    · have hsh : A ++ (58 :: (C ++ (43 :: ([] : List Nat)))) =
          (A ++ (58 :: C)) ++ [43] := by simp
      rw [hsh, List.getLast?_concat]
      simp
    · have hd : d ≠ 10 := by
        intro hd
        subst hd
        simp at hD
      have hsh : A ++ (58 :: (C ++ (43 :: D'.concat d))) =
          (A ++ (58 :: (C ++ (43 :: D')))) ++ [d] := by simp
      rw [hsh, List.getLast?_concat]
      simp [hd]
  have hlen : (A ++ (58 :: (C ++ (43 :: D)))).length =
      A.length + C.length + 2 + D.length := by
    simp <;> omega
  have hbeq : ((A ++ (58 :: (C ++ (43 :: D)))).getLast? == some 10)
      = false := by simpa using hlast
  unfold i5_span
  rw [hguard]
  simp only [Bool.false_eq_true, if_false]
  simp only [hj]
  rw [hdrop]
  simp only [hk]
  rw [hbeq, hlen]
  simp only [Bool.false_eq_true, if_false, Option.some.injEq, Prod.mk.injEq]
  exact ⟨by omega, trivial⟩

theorem rewrite_decomp_nl (A C E : List Nat)
    (hhead : (A ++ (58 :: (C ++ (43 :: (E ++ [10]))))).headD 0 = 64)
    (h58C : 58 ∉ C) (h58E : 58 ∉ E) (h43C : 43 ∉ C) :
    rewrite_header_i5 (A ++ (58 :: (C ++ (43 :: (E ++ [10]))))) =
      (true, A ++ (58 :: (C ++ (43 :: (revcomp E ++ [10]))))) := by
  rw [rewrite_of_span_some _ _ _
    (i5_span_decomp_nl A C E hhead h58C h58E h43C)]
  have hP : (A ++ (58 :: (C ++ [43]))).length = A.length + C.length + 2 := by
    simp <;> omega
  have hsh1 : A ++ (58 :: (C ++ (43 :: (E ++ [10])))) =
      (A ++ (58 :: (C ++ [43]))) ++ (E ++ [10]) := by simp
  have htake : (A ++ (58 :: (C ++ (43 :: (E ++ [10]))))).take
      (A.length + C.length + 2) = A ++ (58 :: (C ++ [43])) := by
    rw [hsh1, ← hP, take_append_self]
  have hdrop1 : (A ++ (58 :: (C ++ (43 :: (E ++ [10]))))).drop
      (A.length + C.length + 2) = E ++ [10] := by
    rw [hsh1, ← hP, drop_append_self]
  have he : A.length + C.length + 2 + E.length - (A.length + C.length + 2)
      = E.length := by omega
  have hsh2 : A ++ (58 :: (C ++ (43 :: (E ++ [10])))) =
      ((A ++ (58 :: (C ++ [43]))) ++ E) ++ [10] := by simp
  have hPE : ((A ++ (58 :: (C ++ [43]))) ++ E).length =
      A.length + C.length + 2 + E.length := by simp <;> omega
  have hdrop2 : (A ++ (58 :: (C ++ (43 :: (E ++ [10]))))).drop
      (A.length + C.length + 2 + E.length) = [10] := by
    rw [hsh2, ← hPE, drop_append_self]
  rw [htake, hdrop1, he, hdrop2, take_append_self]
  simp

theorem rewrite_decomp_nonl (A C D : List Nat)
    (hhead : (A ++ (58 :: (C ++ (43 :: D)))).headD 0 = 64)
    (h58C : 58 ∉ C) (h58D : 58 ∉ D) (h43C : 43 ∉ C)
    (hD : D.getLast? ≠ some 10) :
    rewrite_header_i5 (A ++ (58 :: (C ++ (43 :: D)))) =
      (true, A ++ (58 :: (C ++ (43 :: revcomp D)))) := by
  rw [rewrite_of_span_some _ _ _
    (i5_span_decomp_nonl A C D hhead h58C h58D h43C hD)]
  have hP : (A ++ (58 :: (C ++ [43]))).length = A.length + C.length + 2 := by
    simp <;> omega
  have hsh1 : A ++ (58 :: (C ++ (43 :: D))) =
      (A ++ (58 :: (C ++ [43]))) ++ D := by simp
  have htake : (A ++ (58 :: (C ++ (43 :: D)))).take
      (A.length + C.length + 2) = A ++ (58 :: (C ++ [43])) := by
    rw [hsh1, ← hP, take_append_self]
  have hdrop1 : (A ++ (58 :: (C ++ (43 :: D)))).drop
      (A.length + C.length + 2) = D := by
    rw [hsh1, ← hP, drop_append_self]
  have he : A.length + C.length + 2 + D.length - (A.length + C.length + 2)
      = D.length := by omega
  have hlen : (A ++ (58 :: (C ++ (43 :: D)))).length =
      A.length + C.length + 2 + D.length := by simp <;> omega
  have hdrop2 : (A ++ (58 :: (C ++ (43 :: D)))).drop
      (A.length + C.length + 2 + D.length) = [] := by
    rw [← hlen, List.drop_length]
  rw [htake, hdrop1, he, hdrop2, List.take_length]
  simp

/-- The embedded rewriter agrees with claim C1's wording of the rewrite
on every nonempty buffer whose first byte is `'@'`. -/
theorem rewrite_eq_spec (h : List Nat) (hne : h ≠ [])
    (hat : h.headD 0 = 64) :
    (rewrite_header_i5 h).2 = spec_i5_rewrite h := by
  have hie : h.isEmpty = false := List.isEmpty_eq_false.mpr hne
  simp only [List.headD_eq_head?_getD] at hat
  have hguard : (h.isEmpty || h.headD 0 != 64) = false := by
    simp [hie, hat]
  unfold rewrite_header_i5 spec_i5_rewrite
  rw [hguard]
  simp only [Bool.false_eq_true, if_false]
  cases hj : memrchr 58 h with
  | none => simp [hj]
  | some j =>
    cases hk : memchr 43 (h.drop (j + 1)) with
    | none => simp [hj, hk]
    | some rel_k =>
      simp only [hj, hk]
      rw [reverse_complement_in_place_eq]

theorem getLast?_compose (A C D : List Nat) (hD : D ≠ []) :
    (A ++ (58 :: (C ++ (43 :: D)))).getLast? = D.getLast? := by
  rcases List.eq_nil_or_concat D with rfl | ⟨D', d, rfl⟩
  · exact absurd rfl hD
  · have hsh : A ++ (58 :: (C ++ (43 :: D'.concat d))) =
        (A ++ (58 :: (C ++ (43 :: D')))) ++ [d] := by simp
    rw [hsh, List.getLast?_concat]
    simp

theorem getLast?_compose_nil (A C : List Nat) :
    (A ++ (58 :: (C ++ (43 :: ([] : List Nat))))).getLast? = some 43 := by
  have hsh : A ++ (58 :: (C ++ (43 :: ([] : List Nat)))) =
      (A ++ (58 :: C)) ++ [43] := by simp
  rw [hsh, List.getLast?_concat]

theorem i5_field_decomp_nl (A C E : List Nat)
    (hhead : (A ++ (58 :: (C ++ (43 :: (E ++ [10]))))).headD 0 = 64)
    (h58C : 58 ∉ C) (h58E : 58 ∉ E) (h43C : 43 ∉ C) :
    i5_field (A ++ (58 :: (C ++ (43 :: (E ++ [10]))))) = E := by
  unfold i5_field
  rw [i5_span_decomp_nl A C E hhead h58C h58E h43C]
  have hP : (A ++ (58 :: (C ++ [43]))).length = A.length + C.length + 2 := by
    simp <;> omega
  have hsh1 : A ++ (58 :: (C ++ (43 :: (E ++ [10])))) =
      (A ++ (58 :: (C ++ [43]))) ++ (E ++ [10]) := by simp
  have hdrop1 : (A ++ (58 :: (C ++ (43 :: (E ++ [10]))))).drop
      (A.length + C.length + 2) = E ++ [10] := by
    rw [hsh1, ← hP, drop_append_self]
  have he : A.length + C.length + 2 + E.length - (A.length + C.length + 2)
      = E.length := by omega
  simp only [hdrop1, he, take_append_self]

theorem i5_field_decomp_nonl (A C D : List Nat)
    (hhead : (A ++ (58 :: (C ++ (43 :: D)))).headD 0 = 64)
    (h58C : 58 ∉ C) (h58D : 58 ∉ D) (h43C : 43 ∉ C)
    (hD : D.getLast? ≠ some 10) :
    i5_field (A ++ (58 :: (C ++ (43 :: D)))) = D := by
  unfold i5_field
  rw [i5_span_decomp_nonl A C D hhead h58C h58D h43C hD]
  have hP : (A ++ (58 :: (C ++ [43]))).length = A.length + C.length + 2 := by
    simp <;> omega
  have hsh1 : A ++ (58 :: (C ++ (43 :: D))) =
      (A ++ (58 :: (C ++ [43]))) ++ D := by simp
  have hdrop1 : (A ++ (58 :: (C ++ (43 :: D)))).drop
      (A.length + C.length + 2) = D := by
    rw [hsh1, ← hP, drop_append_self]
  have he : A.length + C.length + 2 + D.length - (A.length + C.length + 2)
      = D.length := by omega
  simp only [hdrop1, he, List.take_length]

/-- Every header whose i5 pattern matches decomposes as
`A ++ ':' :: C ++ '+' :: field` (with the trailing newline split off when
present), and the span and field are what the scan computes. -/
theorem i5_span_some_decomp (h : List Nat) (s e : Nat)
    (hs : i5_span h = some (s, e)) :
    ∃ A C, 58 ∉ C ∧ 43 ∉ C ∧ s = A.length + C.length + 2 ∧
      h.headD 0 = 64 ∧
      ((∃ E, 58 ∉ E ∧ h = A ++ (58 :: (C ++ (43 :: (E ++ [10])))) ∧
          e = s + E.length ∧ i5_field h = E) ∨
        (∃ D, 58 ∉ D ∧ D.getLast? ≠ some 10 ∧
          h = A ++ (58 :: (C ++ (43 :: D))) ∧
          e = s + D.length ∧ i5_field h = D)) := by
  have hfield : i5_field h = (h.drop s).take (e - s) := by
    unfold i5_field
    rw [hs]
  unfold i5_span at hs
  cases hg : (h.isEmpty || h.headD 0 != 64) with
  | true => rw [hg] at hs; simp at hs
  | false =>
    rw [hg] at hs
    simp only [Bool.false_eq_true, if_false] at hs
    rw [Bool.or_eq_false_iff] at hg
    obtain ⟨hg1, hg2⟩ := hg
    have hat : h.headD 0 = 64 := by
      rw [bne_eq_false_iff_eq] at hg2
      exact hg2
    cases hj : memrchr 58 h with
    | none => rw [hj] at hs; simp at hs
    | some j =>
      rw [hj] at hs
      simp only at hs
      obtain ⟨A, B, rfl, hlenA, h58B⟩ := memrchr_eq_some 58 h j hj
      have hdropB : (A ++ (58 :: B)).drop (j + 1) = B := by
        rw [← hlenA]
        exact drop_append_cons A B 58
      rw [hdropB] at hs
      cases hk : memchr 43 B with
      | none => rw [hk] at hs; simp at hs
      | some rel_k =>
        rw [hk] at hs
        simp only [Option.some.injEq, Prod.mk.injEq] at hs
        obtain ⟨hse, hee⟩ := hs
        obtain ⟨C, D, rfl, hlenC, h43C⟩ := memchr_eq_some 43 B rel_k hk
        have h58C : 58 ∉ C := fun hm => h58B (by simp [hm])
        have h58D : 58 ∉ D := fun hm => h58B (by simp [hm])
        refine ⟨A, C, h58C, h43C, by omega, hat, ?_⟩
        have hlen : (A ++ (58 :: (C ++ (43 :: D)))).length =
            A.length + C.length + 2 + D.length := by
          simp <;> omega
        cases hbeq : ((A ++ (58 :: (C ++ (43 :: D)))).getLast? == some 10) with
        | true =>
          rw [hbeq] at hee
          simp only [if_true] at hee
          have hlast : (A ++ (58 :: (C ++ (43 :: D)))).getLast? = some 10 :=
            beq_iff_eq.mp hbeq
          have hDne : D ≠ [] := by
            rintro rfl
            rw [getLast?_compose_nil] at hlast
            simp at hlast
          obtain ⟨E, d, rfl⟩ := (List.eq_nil_or_concat D).resolve_left hDne
          simp only [List.concat_eq_append] at hlast hee hlen h58D hat ⊢
          have hd : d = 10 := by
            rw [getLast?_compose A C _ (by simp), List.getLast?_concat]
              at hlast
            simpa using hlast
          subst hd
          left
          have h58E : 58 ∉ E := fun hm => h58D (by simp [hm])
          have hlenE : (E ++ [10]).length = E.length + 1 := by simp
          rw [hlen, hlenE] at hee
          refine ⟨E, h58E, rfl, by omega, ?_⟩
          exact i5_field_decomp_nl A C E hat h58C h58E h43C
        | false =>
          rw [hbeq] at hee
          simp only [Bool.false_eq_true, if_false] at hee
          right
          have hlast : (A ++ (58 :: (C ++ (43 :: D)))).getLast? ≠ some 10 :=
            beq_eq_false_iff_ne.mp hbeq
          have hDlast : D.getLast? ≠ some 10 := by
            rcases List.eq_nil_or_concat D with rfl | ⟨D', d, rfl⟩
            · simp
            · rw [← getLast?_compose A C _ (by simp)]
              exact hlast
          refine ⟨D, h58D, hDlast, rfl, by omega, ?_⟩
          exact i5_field_decomp_nonl A C D hat h58C h58D h43C hDlast

theorem headD_append_cons (A X Y : List Nat) (b d : Nat) :
    (A ++ (b :: X)).headD d = (A ++ (b :: Y)).headD d := by
  cases A <;> simp

/-! Claim theorems. -/

/-- Claim C8: `complement_base` maps A↔T, C↔G, N↔N case-preservingly
(a↔t, c↔g, n↔n) and leaves every byte outside
`{A,C,G,T,N,a,c,g,t,n}` unchanged; `reverse_complement_in_place`
reverses the positions of all bytes, unrecognized bytes included — the
whole buffer equals the reverse of the byte-wise complemented buffer, so
unknown bytes participate in the positional reversal with only the
per-byte substitution skipped. -/
theorem claim_C8 :
    (complement_base 65 = 84 ∧ complement_base 84 = 65 ∧
      complement_base 67 = 71 ∧ complement_base 71 = 67 ∧
      complement_base 78 = 78 ∧
      complement_base 97 = 116 ∧ complement_base 116 = 97 ∧
      complement_base 99 = 103 ∧ complement_base 103 = 99 ∧
      complement_base 110 = 110) ∧
    (∀ b : Nat, b ∉ dnaAlphabet → complement_base b = b) ∧
    (∀ l : List Nat,
      reverse_complement_in_place l = (l.map complement_base).reverse) := by
  refine ⟨by decide, ?_, ?_⟩
  · intro b hb
    simp only [dnaAlphabet, List.mem_cons, List.not_mem_nil, or_false,
      not_or] at hb
    exact complement_base_eq_self hb.1 hb.2.1 hb.2.2.1 hb.2.2.2.1
      hb.2.2.2.2.1 hb.2.2.2.2.2.1 hb.2.2.2.2.2.2.1 hb.2.2.2.2.2.2.2.1
      hb.2.2.2.2.2.2.2.2.1 hb.2.2.2.2.2.2.2.2.2
  · intro l
    rw [reverse_complement_in_place_eq]
    rfl

theorem claim_C8_witness :
    complement_base 88 = 88 ∧
    reverse_complement_in_place [65, 88, 78] = [78, 88, 84] := by
  constructor
  · exact claim_C8.2.1 88 (by decide)
  · rw [claim_C8.2.2 [65, 88, 78]]
    decide

/-- Claim C10: whenever the scans of `rewrite_header_i5` find the last
`':'` at index `j` and a `'+'` at relative offset `rel_k`, the computed
slice bounds satisfy `i5_start ≤ i5_end ≤ header.length` (also when the
`'+'` is the final byte, with or without a trailing newline), so taking
the i5 slice and running the two-pointer loop never goes out of
bounds. -/
theorem claim_C10 (header : List Nat) (j rel_k : Nat)
    (hj : memrchr 58 header = some j)
    (hk : memchr 43 (header.drop (j + 1)) = some rel_k) :
    j + 1 + rel_k + 1 ≤
      (if header.getLast? == some 10 then header.length - 1
        else header.length) ∧
    (if header.getLast? == some 10 then header.length - 1
      else header.length) ≤ header.length := by
  obtain ⟨A, B, rfl, hlenA, h58B⟩ := memrchr_eq_some 58 header j hj
  have hdropB : (A ++ (58 :: B)).drop (j + 1) = B := by
    rw [← hlenA]
    exact drop_append_cons A B 58
  rw [hdropB] at hk
  obtain ⟨C, D, rfl, hlenC, h43C⟩ := memchr_eq_some 43 B rel_k hk
  have hlen : (A ++ (58 :: (C ++ (43 :: D)))).length =
      A.length + C.length + 2 + D.length := by simp <;> omega
  cases hbeq : ((A ++ (58 :: (C ++ (43 :: D)))).getLast? == some 10) with
  | true =>
    have hlast : (A ++ (58 :: (C ++ (43 :: D)))).getLast? = some 10 :=
      beq_iff_eq.mp hbeq
    have hDne : D ≠ [] := by
      rintro rfl
      rw [getLast?_compose_nil] at hlast
      simp at hlast
    have hDlen : 1 ≤ D.length := by
      cases D with
      | nil => exact absurd rfl hDne
      | cons a D => simp
    simp only [if_true]
    omega
  | false =>
    simp only [Bool.false_eq_true, if_false]
    omega

theorem claim_C10_witness :
    memrchr 58 [64, 58, 43, 10] = some 1 ∧
    memchr 43 ([64, 58, 43, 10].drop (1 + 1)) = some 0 ∧
    (1 + 1 + 0 + 1 ≤ 3 ∧ 3 ≤ [64, 58, 43, 10].length) :=
  ⟨by decide, by decide,
    by exact claim_C10 [64, 58, 43, 10] 1 0 (by decide) (by decide)⟩

/-- Claim C9: a header that begins with `'@'`, has a `':'` (last one at
index `j`) and a `'+'` after it (at relative offset `rel_k`), but whose
i5 field is empty — the `'+'` is immediately followed by the trailing
line feed or by the end of the buffer — is left byte-for-byte unchanged
by `rewrite_header_i5`, which nevertheless returns `true`. -/
theorem claim_C9 (header : List Nat) (j rel_k : Nat)
    (hat : header.headD 0 = 64)
    (hj : memrchr 58 header = some j)
    (hk : memchr 43 (header.drop (j + 1)) = some rel_k)
    (hempty : header.drop (j + 1 + rel_k + 1) = [] ∨
      header.drop (j + 1 + rel_k + 1) = [10]) :
    rewrite_header_i5 header = (true, header) := by
  obtain ⟨A, B, rfl, hlenA, h58B⟩ := memrchr_eq_some 58 header j hj
  have hdropB : (A ++ (58 :: B)).drop (j + 1) = B := by
    rw [← hlenA]
    exact drop_append_cons A B 58
  rw [hdropB] at hk
  obtain ⟨C, D, rfl, hlenC, h43C⟩ := memchr_eq_some 43 B rel_k hk
  have h58C : 58 ∉ C := fun hm => h58B (by simp [hm])
  have h58D : 58 ∉ D := fun hm => h58B (by simp [hm])
  have hP : (A ++ (58 :: (C ++ [43]))).length = j + 1 + rel_k + 1 := by
    simp <;> omega
  have hsh : A ++ (58 :: (C ++ (43 :: D))) =
      (A ++ (58 :: (C ++ [43]))) ++ D := by simp
  have hdropD : (A ++ (58 :: (C ++ (43 :: D)))).drop (j + 1 + rel_k + 1)
      = D := by
    rw [hsh, ← hP, drop_append_self]
  rw [hdropD] at hempty
  rcases hempty with rfl | rfl
  · rw [rewrite_decomp_nonl A C [] hat h58C h58D h43C (by simp)]
    simp [revcomp]
  · rw [show (43 : Nat) :: [10] = 43 :: (([] : List Nat) ++ [10]) from rfl]
    rw [rewrite_decomp_nl A C [] hat h58C (by simp) h43C]
    simp [revcomp]

theorem claim_C9_witness :
    rewrite_header_i5 [64, 58, 43, 10] = (true, [64, 58, 43, 10]) :=
  claim_C9 [64, 58, 43, 10] 1 0 (by decide) (by decide) (by decide)
    (by decide)

/-- Claim C6 as amended: `read_line` clears the destination buffer
first, so whatever the buffer held before the call, afterwards it holds
exactly the newly read line — the input's bytes up to and including the
first line feed, or all remaining bytes when no line feed exists — and
the result does not depend on the buffer's previous contents. -/
theorem claim_C6 (buf input : List Nat) :
    (read_line buf input).1 =
      (match memchr 10 input with
        | some pos => input.take (pos + 1)
        | none => input) ∧
    (read_line buf input).1 = (read_line [] input).1 := by
  refine ⟨?_, rfl⟩
  unfold read_line read_line_loop
  by_cases hin : input = []
  · subst hin
    simp [memchr]
  · have hie : input.isEmpty = false := by simpa using hin
    rw [hie]
    cases hmem : memchr 10 input with
    | none => simp
    | some pos => simp

/-- Claim C6, literal form, is false: `read_line` does not preserve a
destination buffer holding `[65]`; the buffer afterwards holds only the
new line `[88, 10]`, not `[65] ++ [88, 10]`. -/
theorem claim_C6_counterexample :
    (read_line [65] [88, 10]).1 = [88, 10] ∧
    (read_line [65] [88, 10]).1 ≠ [65] ++ [88, 10] := by
  constructor <;> decide

/-- Valid slice bounds, derived for every matching header. -/
theorem i5_span_bounds (h : List Nat) (s e : Nat)
    (hs : i5_span h = some (s, e)) : s ≤ e ∧ e ≤ h.length := by
  obtain ⟨A, C, -, -, hse, -, hcase⟩ := i5_span_some_decomp h s e hs
  rcases hcase with ⟨E, -, rfl, hee, -⟩ | ⟨D, -, -, rfl, hee, -⟩
  · have hlen : (A ++ (58 :: (C ++ (43 :: (E ++ [10]))))).length =
        A.length + C.length + 3 + E.length := by simp <;> omega
    omega
  · have hlen : (A ++ (58 :: (C ++ (43 :: D)))).length =
        A.length + C.length + 2 + D.length := by simp <;> omega
    omega

/-- Claim C7: a header that is empty, or does not begin with `'@'`, or
has no `':'`, or has no `'+'` after its last `':'` (the four
`headerNoMatch` cases) is left byte-for-byte unchanged by
`rewrite_header_i5`, which returns `false`; and the driver loop still
writes such a record verbatim and continues — it never aborts the run
for this reason. -/
theorem claim_C7 (header : List Nat)
    (hnm : headerNoMatch header = true) :
    rewrite_header_i5 header = (false, header) ∧
    (∀ s p q rest : List Nat, isProperLine header = true →
      isProperLine s = true → isProperLine p = true →
      isProperLine q = true →
      processStream (header ++ (s ++ (p ++ (q ++ rest)))) =
        (header ++ s ++ p ++ q ++ (processStream rest).1,
          (processStream rest).2)) := by
  have hn := (headerNoMatch_iff_span_none header).mp hnm
  have hrw := rewrite_of_span_none header hn
  refine ⟨hrw, ?_⟩
  intro s p q rest hh hs hp hq
  rw [processStream_record header s p q rest hh hs hp (Or.inl hq), hrw]

theorem claim_C7_witness :
    headerNoMatch [64, 114, 53, 32, 49, 58, 78, 58, 48, 58, 65, 65, 65,
      65, 10] = true ∧
    rewrite_header_i5 [64, 114, 53, 32, 49, 58, 78, 58, 48, 58, 65, 65,
      65, 65, 10] =
      (false, [64, 114, 53, 32, 49, 58, 78, 58, 48, 58, 65, 65, 65, 65,
        10]) ∧
    processStream ([64, 114, 53, 32, 49, 58, 78, 58, 48, 58, 65, 65, 65,
        65, 10] ++ ([65, 10] ++ ([43, 10] ++ ([33, 10] ++ [])))) =
      ([64, 114, 53, 32, 49, 58, 78, 58, 48, 58, 65, 65, 65, 65, 10] ++
        [65, 10] ++ [43, 10] ++ [33, 10] ++ (processStream []).1,
        (processStream []).2) :=
  ⟨by decide,
    (claim_C7 _ (by decide)).1,
    (claim_C7 _ (by decide)).2 [65, 10] [43, 10] [33, 10] []
      (by decide) (by decide) (by decide) (by decide)⟩

/-- Claim C5: `rewrite_header_i5` never changes the buffer's length,
and every byte at a position outside the i5 field (in particular the
leading `'@'`, all delimiter bytes, and the trailing newline when
present) is unchanged by the call. -/
theorem claim_C5 (header : List Nat) :
    (rewrite_header_i5 header).2.length = header.length ∧
    (∀ i : Nat, outsideSpanB header i = true →
      (rewrite_header_i5 header).2.getD i 0 = header.getD i 0) := by
  cases hsp : i5_span header with
  | none =>
    rw [rewrite_of_span_none header hsp]
    exact ⟨rfl, fun i _ => rfl⟩
  | some se =>
    obtain ⟨s, e⟩ := se
    obtain ⟨hsle, hele⟩ := i5_span_bounds header s e hsp
    rw [rewrite_of_span_some header s e hsp]
    have hflen : (revcomp ((header.drop s).take (e - s))).length = e - s := by
      rw [revcomp_length, List.length_take, List.length_drop]
      omega
    constructor
    · simp only [List.length_append, hflen, List.length_take,
        List.length_drop]
      omega
    · intro i hout
      unfold outsideSpanB at hout
      rw [hsp] at hout
      simp only [Bool.or_eq_true, decide_eq_true_eq] at hout
      have htlen : (header.take s).length = s :=
        List.length_take_of_le (le_trans hsle hele)
      rcases hout with hlt | hge
      · rw [List.getD_eq_getElem?_getD, List.getD_eq_getElem?_getD]
        rw [List.append_assoc]
        rw [List.getElem?_append_left (by rw [htlen]; exact hlt)]
        rw [List.getElem?_take, if_pos hlt]
      · rw [List.getD_eq_getElem?_getD, List.getD_eq_getElem?_getD]
        have hplen : (header.take s ++
            revcomp ((header.drop s).take (e - s))).length = e := by
          simp only [List.length_append, htlen, hflen]
          omega
        rw [List.getElem?_append_right (by rw [hplen]; exact hge)]
        have hidx : e + (i - e) = i := by omega
        rw [hplen, List.getElem?_drop, hidx]

theorem claim_C5_witness :
    (rewrite_header_i5 [64, 58, 43, 65, 10]).2.length =
      [64, 58, 43, 65, 10].length ∧
    (rewrite_header_i5 [64, 58, 43, 65, 10]).2.getD 0 0 =
      [64, 58, 43, 65, 10].getD 0 0 :=
  ⟨(claim_C5 [64, 58, 43, 65, 10]).1,
    (claim_C5 [64, 58, 43, 65, 10]).2 0 (by decide)⟩

/-- Claim C2 concerns the input of the CLI test `invalid_missing_plus`:
`"@r1 1:N:0:AAAAACGT\nACGT\n+\n!!!!\n"`, whose header has `':'` but no
`'+'` after the last one.  The embedded program does not fail on it: it
terminates cleanly (error `none`, i.e. exit status 0) and passes every
byte through unchanged, writing nothing to standard error — contradicting
the test's expectation of a nonzero exit with `'+'` in the diagnostic. -/
theorem claim_C2 :
    processStream [64, 114, 49, 32, 49, 58, 78, 58, 48, 58, 65, 65, 65,
        65, 65, 67, 71, 84, 10, 65, 67, 71, 84, 10, 43, 10, 33, 33, 33,
        33, 10] =
      ([64, 114, 49, 32, 49, 58, 78, 58, 48, 58, 65, 65, 65, 65, 65, 67,
        71, 84, 10, 65, 67, 71, 84, 10, 43, 10, 33, 33, 33, 33, 10],
        none) := by
  rw [show ([64, 114, 49, 32, 49, 58, 78, 58, 48, 58, 65, 65, 65, 65,
      65, 67, 71, 84, 10, 65, 67, 71, 84, 10, 43, 10, 33, 33, 33, 33,
      10] : List Nat) =
      [64, 114, 49, 32, 49, 58, 78, 58, 48, 58, 65, 65, 65, 65, 65, 67,
        71, 84, 10] ++ ([65, 67, 71, 84, 10] ++ ([43, 10] ++
        ([33, 33, 33, 33, 10] ++ ([] : List Nat)))) from by decide]
  rw [processStream_record [64, 114, 49, 32, 49, 58, 78, 58, 48, 58, 65,
    65, 65, 65, 65, 67, 71, 84, 10] [65, 67, 71, 84, 10] [43, 10]
    [33, 33, 33, 33, 10] [] (by decide) (by decide) (by decide)
    (Or.inl (by decide))]
  rw [show rewrite_header_i5 [64, 114, 49, 32, 49, 58, 78, 58, 48, 58,
      65, 65, 65, 65, 65, 67, 71, 84, 10] =
      (false, [64, 114, 49, 32, 49, 58, 78, 58, 48, 58, 65, 65, 65, 65,
        65, 67, 71, 84, 10]) from by decide]
  rw [processStream_nil]
  decide

/-- Claim C4: on a header whose pattern matches and whose i5 field holds
only bytes of `{A,C,G,T,N,a,c,g,t,n}`, applying `rewrite_header_i5`
twice restores the original bytes; concretely, rewriting
`"@r1 1:N:0:AAAA+ACTACTTGAG\n"` yields `"@r1 1:N:0:AAAA+CTCAAGTAGT\n"`,
and rewriting that result again yields the original. -/
theorem claim_C4 :
    (∀ header : List Nat, (i5_span header).isSome = true →
      (∀ b ∈ i5_field header, b ∈ dnaAlphabet) →
      (rewrite_header_i5 (rewrite_header_i5 header).2).2 = header) ∧
    rewrite_header_i5 [64, 114, 49, 32, 49, 58, 78, 58, 48, 58, 65, 65,
        65, 65, 43, 65, 67, 84, 65, 67, 84, 84, 71, 65, 71, 10] =
      (true, [64, 114, 49, 32, 49, 58, 78, 58, 48, 58, 65, 65, 65, 65,
        43, 67, 84, 67, 65, 65, 71, 84, 65, 71, 84, 10]) ∧
    rewrite_header_i5 [64, 114, 49, 32, 49, 58, 78, 58, 48, 58, 65, 65,
        65, 65, 43, 67, 84, 67, 65, 65, 71, 84, 65, 71, 84, 10] =
      (true, [64, 114, 49, 32, 49, 58, 78, 58, 48, 58, 65, 65, 65, 65,
        43, 65, 67, 84, 65, 67, 84, 84, 71, 65, 71, 10]) := by
  refine ⟨?_, ?_, ?_⟩
  · intro h hsome halpha
    obtain ⟨s, e, hse⟩ : ∃ s e, i5_span h = some (s, e) := by
      cases hsp : i5_span h with
      | none => rw [hsp] at hsome; simp at hsome
      | some se =>
        obtain ⟨s, e⟩ := se
        exact ⟨s, e, rfl⟩
    obtain ⟨A, C, h58C, h43C, hs, hat, hcase⟩ :=
      i5_span_some_decomp h s e hse
    rcases hcase with ⟨E, h58E, heq, hee, hfE⟩ |
      ⟨D, h58D, hDlast, heq, hee, hfD⟩
    · subst heq
      rw [hfE] at halpha
      have hrcmem := revcomp_mem_alphabet halpha
      have h58RC : 58 ∉ revcomp E := fun hm => by
        have := hrcmem 58 hm
        simp [dnaAlphabet] at this
      have hat2 : (A ++ (58 :: (C ++ (43 :: (revcomp E ++ [10]))))).headD 0
          = 64 := by
        rw [headD_append_cons A (C ++ (43 :: (revcomp E ++ [10])))
          (C ++ (43 :: (E ++ [10]))) 58 0]
        exact hat
      have hrw1 := rewrite_decomp_nl A C E hat h58C h58E h43C
      have hrw2 := rewrite_decomp_nl A C (revcomp E) hat2 h58C h58RC h43C
      simp only [hrw1, hrw2, revcomp_revcomp]
    · subst heq
      rw [hfD] at halpha
      have hrcmem := revcomp_mem_alphabet halpha
      have h58RC : 58 ∉ revcomp D := fun hm => by
        have := hrcmem 58 hm
        simp [dnaAlphabet] at this
      have hDlast2 : (revcomp D).getLast? ≠ some 10 := by
        intro hcon
        rcases List.eq_nil_or_concat (revcomp D) with hnil | ⟨X, x, hX⟩
        · rw [hnil] at hcon
          simp at hcon
        · rw [hX, List.concat_eq_append, List.getLast?_concat] at hcon
          have hxmem : x ∈ revcomp D := by
            rw [hX]
            simp
          have hxal := hrcmem x hxmem
          simp only [Option.some.injEq] at hcon
          rw [hcon] at hxal
          simp [dnaAlphabet] at hxal
      have hat2 : (A ++ (58 :: (C ++ (43 :: revcomp D)))).headD 0 = 64 := by
        rw [headD_append_cons A (C ++ (43 :: revcomp D))
          (C ++ (43 :: D)) 58 0]
        exact hat
      have hrw1 := rewrite_decomp_nonl A C D hat h58C h58D h43C hDlast
      have hrw2 := rewrite_decomp_nonl A C (revcomp D) hat2 h58C h58RC
        h43C hDlast2
      simp only [hrw1, hrw2, revcomp_revcomp]
  · rw [show ([64, 114, 49, 32, 49, 58, 78, 58, 48, 58, 65, 65, 65, 65,
        43, 65, 67, 84, 65, 67, 84, 84, 71, 65, 71, 10] : List Nat) =
        [64, 114, 49, 32, 49, 58, 78, 58, 48] ++ (58 :: ([65, 65, 65, 65]
          ++ (43 :: ([65, 67, 84, 65, 67, 84, 84, 71, 65, 71] ++ [10]))))
        from by decide]
    rw [rewrite_decomp_nl [64, 114, 49, 32, 49, 58, 78, 58, 48]
      [65, 65, 65, 65] [65, 67, 84, 65, 67, 84, 84, 71, 65, 71]
      (by decide) (by decide) (by decide) (by decide)]
    decide
  · rw [show ([64, 114, 49, 32, 49, 58, 78, 58, 48, 58, 65, 65, 65, 65,
        43, 67, 84, 67, 65, 65, 71, 84, 65, 71, 84, 10] : List Nat) =
        [64, 114, 49, 32, 49, 58, 78, 58, 48] ++ (58 :: ([65, 65, 65, 65]
          ++ (43 :: ([67, 84, 67, 65, 65, 71, 84, 65, 71, 84] ++ [10]))))
        from by decide]
    rw [rewrite_decomp_nl [64, 114, 49, 32, 49, 58, 78, 58, 48]
      [65, 65, 65, 65] [67, 84, 67, 65, 65, 71, 84, 65, 71, 84]
      (by decide) (by decide) (by decide) (by decide)]
    decide

theorem claim_C4_witness :
    (i5_span [64, 114, 49, 32, 49, 58, 78, 58, 48, 58, 65, 65, 65, 65,
      43, 65, 67, 84, 65, 67, 84, 84, 71, 65, 71, 10]).isSome = true ∧
    (rewrite_header_i5 (rewrite_header_i5 [64, 114, 49, 32, 49, 58, 78,
        58, 48, 58, 65, 65, 65, 65, 43, 65, 67, 84, 65, 67, 84, 84, 71,
        65, 71, 10]).2).2 =
      [64, 114, 49, 32, 49, 58, 78, 58, 48, 58, 65, 65, 65, 65, 43, 65,
        67, 84, 65, 67, 84, 84, 71, 65, 71, 10] :=
  ⟨by decide,
    claim_C4.1 [64, 114, 49, 32, 49, 58, 78, 58, 48, 58, 65, 65, 65, 65,
      43, 65, 67, 84, 65, 67, 84, 84, 71, 65, 71, 10] (by decide)
      (by decide)⟩

/-! Stream-level helper lemmas. -/

theorem joinRecs_cons (r : Rec4) (rs : List Rec4) :
    joinRecs (r :: rs) = r.h ++ (r.s ++ (r.p ++ (r.q ++ joinRecs rs))) := by
  simp [joinRecs, flat4]

/-- The spec-side rewrite preserves the number of line feeds of a header
that starts with `'@'`. -/
theorem spec_i5_rewrite_count (h : List Nat) (hne : h ≠ [])
    (hat : h.headD 0 = 64) :
    (spec_i5_rewrite h).count 10 = h.count 10 := by
  rw [← rewrite_eq_spec h hne hat]
  cases hsp : i5_span h with
  | none => rw [rewrite_of_span_none h hsp]
  | some se =>
    obtain ⟨s, e⟩ := se
    obtain ⟨A, C, h58C, h43C, -, hat2, hcase⟩ :=
      i5_span_some_decomp h s e hsp
    rcases hcase with ⟨E, h58E, heq, -, -⟩ | ⟨D, h58D, hDl, heq, -, -⟩
    · subst heq
      rw [rewrite_decomp_nl A C E hat2 h58C h58E h43C]
      simp [List.count_append, List.count_cons, revcomp_count_ten]
    · subst heq
      rw [rewrite_decomp_nonl A C D hat2 h58C h58D h43C hDl]
      simp [List.count_append, List.count_cons, revcomp_count_ten]

theorem lineCount_eq_zero_iff (l : List Nat) : lineCount l = 0 ↔ l = [] := by
  constructor
  · intro h0
    unfold lineCount at h0
    by_contra hne
    by_cases hlast : l.getLast? = some 10
    · have hmem : 10 ∈ l := List.mem_of_getLast?_eq_some hlast
      have hpos : 0 < l.count 10 := List.count_pos_iff.mpr hmem
      omega
    · have hie : l.isEmpty = false := by simpa using hne
      have hcond : (l.getLast? == some 10 || l.isEmpty) = false := by
        simp [hie, hlast]
      rw [hcond] at h0
      simp at h0
  · rintro rfl
    rfl

theorem lineCount_read_line (l : List Nat) (hne : l ≠ []) :
    lineCount (read_line [] l).2.2 + 1 = lineCount l := by
  unfold read_line read_line_loop
  have hie : l.isEmpty = false := by simpa using hne
  rw [hie]
  simp only [Bool.false_eq_true, if_false]
  cases hmem : memchr 10 l with
  | none =>
    have h10 : 10 ∉ l := (memchr_none_iff 10 l).mp hmem
    have hc : l.count 10 = 0 := List.count_eq_zero.mpr h10
    have hlast : (l.getLast? == some 10) = false := by
      rcases List.eq_nil_or_concat l with rfl | ⟨m, b, rfl⟩
      · exact absurd rfl hne
      · have hb : b ≠ 10 := fun hb => h10 (by simp [hb])
        simp [List.concat_eq_append, List.getLast?_concat, hb]
    unfold lineCount
    rw [hc, hlast]
    simp [hie]
  | some pos =>
    obtain ⟨A, B, rfl, hlenA, h10A⟩ := memchr_eq_some 10 l pos hmem
    have hdropB : (A ++ (10 :: B)).drop (pos + 1) = B := by
      rw [← hlenA]
      exact drop_append_cons A B 10
    simp only [hdropB]
    have hcA : A.count 10 = 0 := List.count_eq_zero.mpr h10A
    unfold lineCount
    rcases List.eq_nil_or_concat B with rfl | ⟨m, b, rfl⟩
    · have hsh : A ++ (10 :: ([] : List Nat)) = A ++ [10] := rfl
      have hlast : ((A ++ (10 :: ([] : List Nat))).getLast? == some 10)
          = true := by
        rw [hsh, List.getLast?_concat]
        simp
      rw [hlast]
      simp [List.count_append, hcA]
    · simp only [List.concat_eq_append]
      have hleq : A ++ (10 :: (m ++ [b])) = (A ++ (10 :: m)) ++ [b] := by
        simp
      have hlast1 : (A ++ (10 :: (m ++ [b]))).getLast? = some b := by
        rw [hleq, List.getLast?_concat]
      have hlast2 : (m ++ [b]).getLast? = some b := List.getLast?_concat m
      rw [hlast1, hlast2]
      have hieB : (m ++ [b]).isEmpty = false := by simp
      have hieL : (A ++ (10 :: (m ++ [b]))).isEmpty = false := by simp
      rw [hieB, hieL]
      have hcnt : (A ++ (10 :: (m ++ [b]))).count 10 =
          (m ++ [b]).count 10 + 1 := by
        simp [List.count_append, List.count_cons, hcA]
      rw [hcnt]
      omega

/-- A nonempty stream holding fewer than 4 lines makes the driver loop
fail with the truncation error before writing anything. -/
theorem processStream_truncated (tail : List Nat) (htail : tail ≠ [])
    (hcount : lineCount tail ≤ 3) :
    processStream tail = ([], some truncated_msg) := by
  rw [processStream_unfold]
  have h1 : (read_line [] tail).2.1 ≠ 0 :=
    read_line_total_ne_zero [] tail htail
  rw [if_neg h1]
  have hc1 : lineCount (read_line [] tail).2.2 + 1 = lineCount tail :=
    lineCount_read_line tail htail
  by_cases he1 : (read_line [] tail).2.2 = []
  · rw [he1, read_line_nil]
    simp
  · have h2 : (read_line [] (read_line [] tail).2.2).2.1 ≠ 0 :=
      read_line_total_ne_zero _ _ he1
    rw [if_neg h2]
    have hc2 : lineCount (read_line [] (read_line [] tail).2.2).2.2 + 1 =
        lineCount (read_line [] tail).2.2 :=
      lineCount_read_line _ he1
    by_cases he2 : (read_line [] (read_line [] tail).2.2).2.2 = []
    · rw [he2, read_line_nil]
      simp
    · have h3 : (read_line []
          (read_line [] (read_line [] tail).2.2).2.2).2.1 ≠ 0 :=
        read_line_total_ne_zero _ _ he2
      rw [if_neg h3]
      have hc3 : lineCount (read_line []
            (read_line [] (read_line [] tail).2.2).2.2).2.2 + 1 =
          lineCount (read_line [] (read_line [] tail).2.2).2.2 :=
        lineCount_read_line _ he2
      have he3 : (read_line []
          (read_line [] (read_line [] tail).2.2).2.2).2.2 = [] := by
        rw [← lineCount_eq_zero_iff]
        omega
      rw [he3, read_line_nil]
      simp

/-- Claim C1: on a well-formed FASTQ stream — records of 4
newline-terminated lines (the stream's final line possibly bare), each
header starting with `'@'` as the spec's record grammar requires — the
program succeeds and its output is byte-identical to the input except
that each header's i5 field (the bytes after the first `'+'` following
the last `':'`, excluding a trailing newline, per `spec_i5_rewrite`,
which `rewrite_eq_spec` relates to the code) is replaced by its reverse
complement; in particular the output has the same number of lines (line
feeds) as the input. -/
theorem claim_C1 (recs : List Rec4)
    (hwf : wfStream recs = true)
    (hat : ∀ r ∈ recs, r.h.headD 0 = 64) :
    processStream (joinRecs recs) =
      (joinRecs (recs.map specRec), none) ∧
    (joinRecs (recs.map specRec)).count 10 = (joinRecs recs).count 10 := by
  induction recs with
  | nil =>
    exact ⟨by
      rw [show joinRecs ([] : List Rec4) = [] from rfl]
      exact processStream_nil, rfl⟩
  | cons r rs ih =>
    simp only [wfStream, Bool.and_eq_true, Bool.or_eq_true] at hwf
    obtain ⟨⟨⟨⟨hh, hs⟩, hp⟩, hq⟩, hwfrs⟩ := hwf
    have hatr : r.h.headD 0 = 64 := hat r (List.mem_cons_self r rs)
    have hatrs : ∀ x ∈ rs, x.h.headD 0 = 64 := fun x hx =>
      hat x (List.mem_cons_of_mem r hx)
    obtain ⟨ih1, ih2⟩ := ih hwfrs hatrs
    have hqor : isProperLine r.q = true ∨
        (joinRecs rs = [] ∧ isBareLine r.q = true) := by
      rcases hq with hq | hq
      · exact Or.inl hq
      · have hrs : rs = [] := by simpa using hq.1
        subst hrs
        exact Or.inr ⟨rfl, hq.2⟩
    constructor
    · rw [joinRecs_cons, processStream_record r.h r.s r.p r.q
        (joinRecs rs) hh hs hp hqor, ih1,
        rewrite_eq_spec r.h (isProperLine_ne_nil hh) hatr]
      simp [joinRecs_cons, specRec]
    · simp only [List.map_cons, joinRecs_cons]
      simp only [specRec, List.count_append]
      rw [spec_i5_rewrite_count r.h (isProperLine_ne_nil hh) hatr, ih2]

theorem claim_C1_witness :
    wfStream [⟨[64, 114, 49, 32, 49, 58, 78, 58, 48, 58, 65, 65, 65, 65,
        43, 65, 67, 84, 65, 67, 84, 84, 71, 65, 71, 10],
      [65, 67, 71, 84, 10], [43, 10], [33, 33, 33, 33, 10]⟩,
      ⟨[64, 114, 50, 32, 49, 58, 78, 58, 48, 58, 67, 67, 67, 67, 43, 97,
        116, 99, 97, 99, 103, 10],
      [84, 71, 67, 65, 10], [43, 10], [35, 35, 35, 35, 10]⟩] = true ∧
    processStream (joinRecs [⟨[64, 114, 49, 32, 49, 58, 78, 58, 48, 58,
        65, 65, 65, 65, 43, 65, 67, 84, 65, 67, 84, 84, 71, 65, 71, 10],
      [65, 67, 71, 84, 10], [43, 10], [33, 33, 33, 33, 10]⟩,
      ⟨[64, 114, 50, 32, 49, 58, 78, 58, 48, 58, 67, 67, 67, 67, 43, 97,
        116, 99, 97, 99, 103, 10],
      [84, 71, 67, 65, 10], [43, 10], [35, 35, 35, 35, 10]⟩]) =
      (joinRecs ([⟨[64, 114, 49, 32, 49, 58, 78, 58, 48, 58, 65, 65, 65,
          65, 43, 65, 67, 84, 65, 67, 84, 84, 71, 65, 71, 10],
        [65, 67, 71, 84, 10], [43, 10], [33, 33, 33, 33, 10]⟩,
        ⟨[64, 114, 50, 32, 49, 58, 78, 58, 48, 58, 67, 67, 67, 67, 43,
          97, 116, 99, 97, 99, 103, 10],
        [84, 71, 67, 65, 10], [43, 10], [35, 35, 35, 35, 10]⟩].map
          specRec), none) :=
  ⟨by decide,
    (claim_C1 _ (by decide) (by decide)).1⟩

/-- Claim C3: when complete newline-terminated records are followed by a
nonempty tail of at most 3 lines (a record whose header is read
successfully but whose sequence, plus-line, or quality read hits end of
stream), the run aborts with the message
`"truncated FASTQ record (expected 4 lines)"`; the output holds exactly
the preceding records (headers rewritten) in full, and no byte of the
truncated record. -/
theorem claim_C3 (recs : List Rec4) (tail : List Nat)
    (hwf : wfProperStream recs = true)
    (htail : tail ≠ []) (hcount : lineCount tail ≤ 3) :
    processStream (joinRecs recs ++ tail) =
      (joinRecs (recs.map rwRec), some truncated_msg) := by
  induction recs with
  | nil =>
    have h0 : joinRecs ([] : List Rec4) = [] := rfl
    rw [h0, List.nil_append]
    rw [processStream_truncated tail htail hcount]
    rfl
  | cons r rs ih =>
    simp only [wfProperStream, Bool.and_eq_true] at hwf
    obtain ⟨⟨⟨⟨hh, hs⟩, hp⟩, hq⟩, hwfrs⟩ := hwf
    have hshape : joinRecs (r :: rs) ++ tail =
        r.h ++ (r.s ++ (r.p ++ (r.q ++ (joinRecs rs ++ tail)))) := by
      rw [joinRecs_cons]
      simp [List.append_assoc]
    rw [hshape, processStream_record r.h r.s r.p r.q (joinRecs rs ++ tail)
      hh hs hp (Or.inl hq), ih hwfrs]
    simp [joinRecs_cons, rwRec]

theorem claim_C3_witness :
    wfProperStream [⟨[64, 114, 49, 32, 49, 58, 78, 58, 48, 58, 65, 65,
        65, 65, 43, 65, 67, 84, 65, 67, 84, 84, 71, 65, 71, 10],
      [65, 67, 71, 84, 10], [43, 10], [33, 33, 33, 33, 10]⟩] = true ∧
    lineCount [64, 114, 50, 10, 65, 67, 71, 84, 10, 46, 46, 46, 10] ≤ 3 ∧
    processStream (joinRecs [⟨[64, 114, 49, 32, 49, 58, 78, 58, 48, 58,
        65, 65, 65, 65, 43, 65, 67, 84, 65, 67, 84, 84, 71, 65, 71, 10],
      [65, 67, 71, 84, 10], [43, 10], [33, 33, 33, 33, 10]⟩] ++
      [64, 114, 50, 10, 65, 67, 71, 84, 10, 46, 46, 46, 10]) =
      (joinRecs ([⟨[64, 114, 49, 32, 49, 58, 78, 58, 48, 58, 65, 65, 65,
          65, 43, 65, 67, 84, 65, 67, 84, 84, 71, 65, 71, 10],
        [65, 67, 71, 84, 10], [43, 10], [33, 33, 33, 33, 10]⟩].map rwRec),
        some truncated_msg) :=
  ⟨by decide, by decide,
    claim_C3 _ _ (by decide) (by decide) (by decide)⟩

end FastqFix
